import Mathlib

/-!
Verification development for the storage/concurrency core of an educational
relational database engine (buffer pool manager, LRU-K replacer, B+ tree
index pages, lock manager).  The C++ sources are shallowly embedded below:
pure fragments become Lean functions, stateful code becomes explicit state
passing, `size_t` counters are `Nat` with mod-2^64 wraparound where the code
can underflow, raw page arrays become total functions so that the code's
out-of-range reads stay observable, and loops whose termination is in
question take explicit fuel and return `Option`.
-/

namespace DB

/-- INVALID_PAGE_ID from common/config.h (the header is not part of the
sources; the spec reserves a single INVALID page id, which is -1 in BusTub). -/
def invalidPageId : Int := -1

/-- Word size of `size_t`; the replacer's `curr_size_`/`evict_size_` are
`size_t` and the code can decrement them past zero, so decrements wrap. -/
def w64 : Nat := 2 ^ 64

/-- Decrement of a `size_t` counter (wraps at zero, as the source can
underflow `curr_size_--`). -/
def decW64 (n : Nat) : Nat := (n + (w64 - 1)) % w64

/-! ## LRU-K replacer (src/buffer/lru_k_replacer.cpp)

A replacer node holds the access-timestamp history and the evictable flag
(`LRUKReplacer::Node`).  The source keeps each node simultaneously in a
doubly linked list (history or cache) and in the matching hash map
`mp1_`/`mp2_`; every modelled code path keeps list and map in sync, so the
embedding fuses the two into one association list per logical list, ordered
head-first exactly as the C++ list (`head_->next_` is the list head; new
nodes are pushed at the head, eviction scans start at the tail). -/

structure RNode where
  timestamps : List Nat
  evictable : Bool
deriving Repr, DecidableEq

/-- State of `LRUKReplacer`: the history list (`mp1_`, frames with fewer than
k accesses), the cache list (`mp2_`), the monotone timestamp counter, the
`curr_size_` and `evict_size_` counters (`size_t`), the frame capacity
`replacer_size_` and the parameter `k_`. -/
structure RState where
  hist : List (Nat × RNode)
  cache : List (Nat × RNode)
  now : Nat
  currSize : Nat
  evictSize : Nat
  replacerSize : Nat
  k : Nat
deriving Repr, DecidableEq

/-- Fresh replacer, as built by `LRUKReplacer(num_frames, k)`. -/
def RState.init (numFrames kk : Nat) : RState :=
  ⟨[], [], 0, 0, 0, numFrames, kk⟩

/-- The k-th most recent access time of a node: the source reads
`timestamp_[timestamp_.size() - k_]` (cache nodes always have at least k
entries). -/
def kTime (ts : List Nat) (k : Nat) : Nat := ts.getD (ts.length - k) 0

/-- Eviction scan of the history list (`Evict`, first branch): the C++ walk
starts at `history_tail_->pre_` and moves toward the head while the node is
not evictable, so it selects the evictable node closest to the tail, i.e.
the earliest-inserted evictable frame. -/
def scanHistFromTail (l : List (Nat × RNode)) : Option (Nat × RNode) :=
  l.reverse.find? (fun p => p.2.evictable)

/-- Eviction scan of the cache list (`Evict`, second branch): the C++ loop
`while (p->pre_ && !p->evictable_)` walks from the tail and stops at the
first EVICTABLE node; its body accumulates, over the NON-evictable nodes
scanned so far, the frame with the minimal k-th most recent access
(`k_time < latest` keeps the first minimum in scan order).  The candidate it
returns is therefore always a non-evictable frame, and it returns none when
the tail-most cache node is evictable. -/
def scanCacheFromTail (l : List (Nat × RNode)) (k : Nat) : Option Nat :=
  let scanned := l.reverse.takeWhile (fun p => !p.2.evictable)
  match scanned.foldl
      (fun acc p =>
        match acc with
        | none => some (p.1, kTime p.2.timestamps k)
        | some (f, best) =>
            if kTime p.2.timestamps k < best then some (p.1, kTime p.2.timestamps k)
            else some (f, best))
      none with
  | none => none
  | some (f, _) => some f

/-- Remove a frame's entry from a fused list. -/
def eraseFrame (l : List (Nat × RNode)) (f : Nat) : List (Nat × RNode) :=
  l.filter (fun p => p.1 ≠ f)

/-- `LRUKReplacer::Evict`.  Returns the victim frame id (the C++ writes it
through the out-pointer and returns true) and the updated state. -/
def replacerEvict (r : RState) : Option Nat × RState :=
  if r.evictSize ≠ 0 then
    match (if r.hist ≠ [] then scanHistFromTail r.hist else none) with
    | some p =>
        (some p.1,
          { r with hist := eraseFrame r.hist p.1,
                   evictSize := decW64 r.evictSize, currSize := decW64 r.currSize })
    | none =>
        match (if r.cache ≠ [] then scanCacheFromTail r.cache r.k else none) with
        | some f =>
            (some f,
              { r with cache := eraseFrame r.cache f,
                       evictSize := decW64 r.evictSize, currSize := decW64 r.currSize })
        | none => (none, r)
  else (none, r)

/-- Lookup a frame's node in a fused list (`mp1_.find` / `mp2_.find`). -/
def findFrame (l : List (Nat × RNode)) (f : Nat) : Option RNode :=
  (l.find? (fun p => p.1 = f)).map (·.2)

/-- Replace a frame's node in place in a fused list. -/
def setFrame (l : List (Nat × RNode)) (f : Nat) (n : RNode) : List (Nat × RNode) :=
  l.map (fun p => if p.1 = f then (f, n) else p)

/-- `LRUKReplacer::RecordAccess`.  A frame already in the history gets the
new timestamp appended and is promoted to the cache head once it has at
least k accesses; a cache frame just appends; an unseen frame starts a fresh
node.  In the unseen case the source increments `curr_size_` only inside the
`curr_size_ > replacer_size_` branch (and there only when the inner
`Evict(nullptr)` succeeds) — the ordinary insertion path never increments
it, which the embedding reproduces. -/
def recordAccess (r : RState) (f : Nat) : RState :=
  match findFrame r.hist f with
  | some n =>
      let n' : RNode := ⟨n.timestamps ++ [r.now], n.evictable⟩
      if n'.timestamps.length ≥ r.k then
        { r with hist := eraseFrame r.hist f, cache := (f, n') :: r.cache, now := r.now + 1 }
      else
        { r with hist := setFrame r.hist f n', now := r.now + 1 }
  | none =>
      match findFrame r.cache f with
      | some n =>
          { r with cache := setFrame r.cache f ⟨n.timestamps ++ [r.now], n.evictable⟩,
                   now := r.now + 1 }
      | none =>
          let n : RNode := ⟨[r.now], false⟩
          let r1 := { r with now := r.now + 1 }
          if r1.currSize > r1.replacerSize then
            match replacerEvict r1 with
            | (some _, r2) =>
                if n.timestamps.length ≥ r2.k then
                  { r2 with cache := (f, n) :: r2.cache, currSize := (r2.currSize + 1) % w64 }
                else
                  { r2 with hist := (f, n) :: r2.hist, currSize := (r2.currSize + 1) % w64 }
            | (none, r2) => r2
          else
            if n.timestamps.length < r1.k then
              { r1 with hist := (f, n) :: r1.hist }
            else
              { r1 with cache := (f, n) :: r1.cache }

/-- `LRUKReplacer::SetEvictable`.  Adjusts `evict_size_` on a flag change;
unknown frames are a no-op.  (The source asserts `0 ≤ frame_id <
replacer_size_` and aborts otherwise; every modelled call respects the
assertion.) -/
def setEvictable (r : RState) (f : Nat) (e : Bool) : RState :=
  match findFrame r.hist f with
  | some n =>
      let es := if e ∧ ¬n.evictable then (r.evictSize + 1) % w64
                else if ¬e ∧ n.evictable then decW64 r.evictSize
                else r.evictSize
      { r with hist := setFrame r.hist f ⟨n.timestamps, e⟩, evictSize := es }
  | none =>
      match findFrame r.cache f with
      | some n =>
          let es := if e ∧ ¬n.evictable then (r.evictSize + 1) % w64
                    else if ¬e ∧ n.evictable then decW64 r.evictSize
                    else r.evictSize
          { r with cache := setFrame r.cache f ⟨n.timestamps, e⟩, evictSize := es }
      | none => r

/-- `LRUKReplacer::Remove`.  Deletes an evictable frame's record; unknown
frames are a no-op.  (On a non-evictable frame the source calls `abort()`;
the embedding leaves the state unchanged there, and no modelled theorem
reaches that branch.) -/
def replacerRemove (r : RState) (f : Nat) : RState :=
  match findFrame r.hist f with
  | some n =>
      if n.evictable then
        { r with hist := eraseFrame r.hist f,
                 evictSize := decW64 r.evictSize, currSize := decW64 r.currSize }
      else r
  | none =>
      match findFrame r.cache f with
      | some n =>
          if n.evictable then
            { r with cache := eraseFrame r.cache f,
                     evictSize := decW64 r.evictSize, currSize := decW64 r.currSize }
          else r
      | none => r

/-! ## Buffer pool manager (src/buffer/buffer_pool_manager_instance.cpp) -/

/-- One page frame (class Page): resident page id (or INVALID), pin count,
dirty flag, and the data buffer abstracted to one token. -/
structure PageFrame where
  pageId : Int
  pinCount : Int
  isDirty : Bool
  data : Nat
deriving Repr, DecidableEq

/-- A freshly constructed frame (page id INVALID, unpinned, clean, zeroed). -/
def PageFrame.empty : PageFrame := ⟨invalidPageId, 0, false, 0⟩

/-- Buffer pool manager state: the frame array, the page directory
(`page_table_`, an extendible hash table used purely as a map page id →
frame id; modelled from the spec as a finite map since the hash table is an
external collaborator outside the sources), the free list, the replacer,
the page-id allocator and the disk contents. -/
structure BPState where
  pages : Nat → PageFrame
  pageTable : List (Int × Nat)
  freeList : List Nat
  repl : RState
  nextPageId : Int
  disk : Int → Nat

/-- Directory lookup (`page_table_->Find`). -/
def ptFind (pt : List (Int × Nat)) (pid : Int) : Option Nat :=
  (pt.find? (fun p => p.1 = pid)).map (·.2)

/-- Directory insert (`page_table_->Insert`). -/
def ptInsert (pt : List (Int × Nat)) (pid : Int) (f : Nat) : List (Int × Nat) :=
  (pid, f) :: pt.filter (fun p => p.1 ≠ pid)

/-- Directory remove (`page_table_->Remove`). -/
def ptRemove (pt : List (Int × Nat)) (pid : Int) : List (Int × Nat) :=
  pt.filter (fun p => p.1 ≠ pid)

/-- Initial buffer pool of `poolSize` frames with replacer parameter `k`
(constructor of BufferPoolManagerInstance: every frame on the free list). -/
def BPState.init (poolSize k : Nat) : BPState :=
  ⟨fun _ => PageFrame.empty, [], List.range poolSize, RState.init poolSize k, 0, fun _ => 0⟩

/-- Update one frame of the frame array. -/
def setPage (pages : Nat → PageFrame) (f : Nat) (pg : PageFrame) : Nat → PageFrame :=
  fun i => if i = f then pg else pages i

/-- `BufferPoolManagerInstance::NewPgImp`.  Returns `some (page id, frame
id)` for the C++ (out-parameter, `Page*`) result, `none` for the null
return.  Free-list frames are preferred; otherwise an eviction victim is
reused, written back first when dirty.  Either way the frame is
re-initialised with pin count 1 and registered with the replacer as
accessed and non-evictable. -/
def newPg (s : BPState) : Option (Int × Nat) × BPState :=
  match s.freeList with
  | f :: rest =>
      let pid := s.nextPageId
      let pages' := setPage s.pages f ⟨pid, 1, false, 0⟩
      let repl' := setEvictable (recordAccess s.repl f) f false
      (some (pid, f),
        { s with pages := pages', pageTable := ptInsert s.pageTable pid f,
                 freeList := rest, repl := repl', nextPageId := s.nextPageId + 1 })
  | [] =>
      match replacerEvict s.repl with
      | (some f, repl1) =>
          let victim := s.pages f
          let disk' := if victim.isDirty then
              (fun p => if p = victim.pageId then victim.data else s.disk p)
            else s.disk
          let pid := s.nextPageId
          let pt1 := ptRemove s.pageTable victim.pageId
          let pages' := setPage s.pages f ⟨pid, 1, false, 0⟩
          let repl' := setEvictable (recordAccess repl1 f) f false
          (some (pid, f),
            { s with pages := pages', pageTable := ptInsert pt1 pid f,
                     repl := repl', nextPageId := s.nextPageId + 1, disk := disk' })
      | (none, _) => (none, s)

/-- `BufferPoolManagerInstance::FetchPgImp`.  INVALID page id returns the
null sentinel untouched.  A resident page gets `RecordAccess`, then
`SetEvictable(frame, true)` (exactly as the source does), and its pin count
incremented.  Otherwise a home frame comes from the free list or from
eviction, and the page is read from disk. -/
def fetchPg (s : BPState) (pid : Int) : Option Nat × BPState :=
  if pid = invalidPageId then (none, s)
  else
    match ptFind s.pageTable pid with
    | some f =>
        let repl' := setEvictable (recordAccess s.repl f) f true
        let pg := s.pages f
        (some f,
          { s with pages := setPage s.pages f { pg with pinCount := pg.pinCount + 1 },
                   repl := repl' })
    | none =>
        match s.freeList with
        | f :: rest =>
            let pages' := setPage s.pages f ⟨pid, 1, false, s.disk pid⟩
            let repl' := setEvictable (recordAccess s.repl f) f false
            (some f,
              { s with pages := pages', freeList := rest,
                       pageTable := ptInsert s.pageTable pid f, repl := repl' })
        | [] =>
            match replacerEvict s.repl with
            | (some f, repl1) =>
                let victim := s.pages f
                let disk' := if victim.isDirty then
                    (fun p => if p = victim.pageId then victim.data else s.disk p)
                  else s.disk
                let pt1 := ptRemove s.pageTable victim.pageId
                let pages' := setPage s.pages f
                  ⟨pid, victim.pinCount + 1, false, s.disk pid⟩
                let repl' := setEvictable (recordAccess repl1 f) f false
                (some f,
                  { s with pages := pages', pageTable := ptInsert pt1 pid f,
                           repl := repl', disk := disk' })
            | (none, _) => (none, s)

/-- `BufferPoolManagerInstance::UnpinPgImp`.  INVALID page id or a missing
page returns false; a resident page with positive pin count gets the pin
decremented, is marked evictable when the count reaches zero, and has its
dirty flag ORed with `is_dirty` — after which the source still falls
through to `return false`, so the function returns false on every path. -/
def unpinPg (s : BPState) (pid : Int) (isDirty : Bool) : Bool × BPState :=
  if pid = invalidPageId then (false, s)
  else
    match ptFind s.pageTable pid with
    | some f =>
        let pg := s.pages f
        if pg.pinCount ≤ 0 then (false, s)
        else
          let pg1 := { pg with pinCount := pg.pinCount - 1 }
          let repl' := if pg1.pinCount = 0 then setEvictable s.repl f true else s.repl
          let pg2 := if ¬pg1.isDirty then { pg1 with isDirty := isDirty } else pg1
          (false, { s with pages := setPage s.pages f pg2, repl := repl' })
    | none => (false, s)

/-- `BufferPoolManagerInstance::FlushPgImp`.  INVALID or non-resident page
ids return false; otherwise the page is written to disk unconditionally and
the dirty flag cleared. -/
def flushPg (s : BPState) (pid : Int) : Bool × BPState :=
  if pid = invalidPageId then (false, s)
  else
    match ptFind s.pageTable pid with
    | some f =>
        let pg := s.pages f
        (true,
          { s with disk := fun p => if p = pid then pg.data else s.disk p,
                   pages := setPage s.pages f { pg with isDirty := false } })
    | none => (false, s)

/-- `BufferPoolManagerInstance::DeletePgImp`.  INVALID page id returns
false; a non-resident page returns true; a pinned page returns false;
otherwise the page is flushed if dirty, removed from directory and
replacer, the frame zeroed and put back on the free list. -/
def deletePg (s : BPState) (pid : Int) : Bool × BPState :=
  if pid = invalidPageId then (false, s)
  else
    match ptFind s.pageTable pid with
    | some f =>
        let pg := s.pages f
        if pg.pinCount ≠ 0 then (false, s)
        else
          let disk' := if pg.isDirty then
              (fun p => if p = pid then pg.data else s.disk p)
            else s.disk
          (true,
            { s with pageTable := ptRemove s.pageTable pid,
                     repl := replacerRemove s.repl f,
                     pages := setPage s.pages f PageFrame.empty,
                     freeList := s.freeList ++ [f],
                     disk := disk' })
    | none => (true, s)

/-! ## B+ tree pages (src/storage/page/b_plus_tree_leaf_page.cpp,
src/storage/page/b_plus_tree_internal_page.cpp)

Keys and values are embedded as `Int` (`GenericComparator` is a three-way
compare, so `cmp(a,b) < 0`, `== 0`, `> 0` become `a < b`, `a = b`, `a > b`).
A page's entry array is a total function so that reads beyond `size` (and,
for internal pages, below index 0) remain observable; a page freshly
allocated by the buffer pool is zeroed. -/

/-- Leaf page (`BPlusTreeLeafPage`): entry array, size, max size, the
`next_page_id_` raw field, parent and own page id. -/
structure LeafPage where
  arr : Nat → Int × Int
  size : Nat
  maxSize : Nat
  nextPageId : Int
  parentPageId : Int
  pageId : Int

/-- `BPlusTreeLeafPage::Init` on a zeroed page: type/size/max/ids are set;
`SetNextPageId` is an empty stub in the source, so the zeroed raw field
keeps value 0. -/
def LeafPage.init (pid parent : Int) (max : Nat) : LeafPage :=
  ⟨fun _ => (0, 0), 0, max, 0, parent, pid⟩

/-- `BPlusTreeLeafPage::GetNextPageId` is a stub that always returns
INVALID_PAGE_ID, regardless of the stored field. -/
def LeafPage.getNextPageId (_ : LeafPage) : Int := invalidPageId

/-- Binary-search loop of `KeyIndex` (leaf): `while (l < r) { mid=(l+r)/2;
if (cmp(a[mid].first, key) < 0) l = mid+1; else r = mid; } return l;`.
The first argument counts loop iterations; it is called with `r - l`, which
the loop body strictly decreases, so the fuel never runs out before
`l ≥ r`. -/
def lowerBoundGo (f : Nat → Int) (key : Int) : Nat → Nat → Nat → Nat
  | 0, l, _ => l
  | d + 1, l, r =>
      if l < r then
        if f ((l + r) / 2) < key then lowerBoundGo f key d ((l + r) / 2 + 1) r
        else lowerBoundGo f key d l ((l + r) / 2)
      else l

/-- `BPlusTreeLeafPage::KeyIndex`: lower bound of `key` in `[0, size)`.
(The source's early `if (l >= r) return r;` coincides with the loop's exit
value since there `l = 0` and `r = size`.) -/
def leafKeyIndex (l : LeafPage) (key : Int) : Nat :=
  lowerBoundGo (fun i => (l.arr i).1) key l.size 0 l.size

/-- `BPlusTreeLeafPage::InSert(value, index, cmp)`: duplicate iff the key at
the caller-computed `index` equals the new key; otherwise entries in
`(index, size]` are shifted right and the pair stored at `index`.  (The
shift loop line in the source is ill-formed C++, `for (int i = 1; i <
GetSize() - 1; i >= index; i--)`; it is embedded as the evident right shift
of the slots from `index` up to `size - 1`.) -/
def leafInSert (l : LeafPage) (kv : Int × Int) (index : Nat) : Bool × LeafPage :=
  if index < l.size ∧ (l.arr index).1 = kv.1 then (false, l)
  else
    (true,
      { l with
        arr := fun j =>
          if j < index then l.arr j
          else if j = index then kv
          else if j ≤ l.size then l.arr (j - 1)
          else l.arr j,
        size := l.size + 1 })

/-- Copy loop of `BPlusTreeLeafPage::Break`: `for (i = mid, j = 0; i <
GetSize(); i++, j++) { bother.array_[j] = array_[i]; IncreaseSize(1);
bother.IncreaseSize(1); }`.  The source increments the SOURCE's size inside
the loop (instead of decrementing it), so the bound `GetSize()` grows with
`i` and the loop condition stays true forever once entered; the fuel
argument makes that observable: the loop yields `none` whenever the fuel
runs out with the condition still true. -/
def breakLoop (fuel : Nat) (self bother : LeafPage) (i j : Nat) :
    Option (LeafPage × LeafPage) :=
  if i < self.size then
    match fuel with
    | 0 => none
    | fuel + 1 =>
        breakLoop fuel { self with size := self.size + 1 }
          { bother with
            arr := fun m => if m = j then self.arr i else bother.arr m,
            size := bother.size + 1 }
          (i + 1) (j + 1)
  else some (self, bother)

/-- `BPlusTreeLeafPage::Break(bother_page)`: `mid = GetMaxSize()/2`, run the
copy loop from `(mid, 0)`, then write the sibling's raw `next_page_id_`
field; the final `SetNextPageId(...)` on the source leaf is a no-op stub. -/
def leafBreak (fuel : Nat) (self bother : LeafPage) : Option (LeafPage × LeafPage) :=
  let mid := self.maxSize / 2
  match breakLoop fuel self bother mid 0 with
  | none => none
  | some (s, b) => some (s, { b with nextPageId := s.nextPageId })

/-- Internal page (`BPlusTreeInternalPage`): the entry array is indexed by
`Int` because `LookUp` can read slot `-1`. -/
structure InternalPage where
  arr : Int → Int × Int
  size : Nat
  maxSize : Nat
  parentPageId : Int
  pageId : Int

/-- `BPlusTreeInternalPage::Init` on a zeroed page. -/
def InternalPage.init (pid parent : Int) (max : Nat) : InternalPage :=
  ⟨fun _ => (0, 0), 0, max, parent, pid⟩

/-- `SetKeyAt` on an internal page. -/
def setKeyAt (a : Int → Int × Int) (i : Int) (k : Int) : Int → Int × Int :=
  fun m => if m = i then (k, (a i).2) else a m

/-- `SetValueAt` on an internal page. -/
def setValAt (a : Int → Int × Int) (i : Int) (v : Int) : Int → Int × Int :=
  fun m => if m = i then ((a i).1, v) else a m

/-- Index read by `BPlusTreeInternalPage::LookUp`: the loop scans `i = 0, 1,
…, size-1` and returns `array_[i-1].second` at the first `i` whose stored
key exceeds the search key (slot 0's STORED key participates in the
comparison, so the read index is `-1` when it exceeds the key), and
`array_[size-1].second` when no stored key does. -/
def internalLookUpIdx (ip : InternalPage) (key : Int) : Int :=
  match (List.range ip.size).find? (fun i => (ip.arr i).1 > key) with
  | some i => (i : Int) - 1
  | none => (ip.size : Int) - 1

/-- `BPlusTreeInternalPage::LookUp(key, cmp)`: the child pointer stored at
`internalLookUpIdx`. -/
def internalLookUp (ip : InternalPage) (key : Int) : Int :=
  (ip.arr (internalLookUpIdx ip key)).2

/-- Shift-and-place loop of `BPlusTreeInternalPage::Insert`: `for (i =
GetSize()-1; i > 0; --i)` shifts entries with larger keys one slot right and
places the pair after the first smaller-or-equal key; if the loop runs off
at `i = 0` the pair is written into slot 1.  The `Nat` argument is the
current loop index. -/
def internalInsertLoop (a : Int → Int × Int) (kv : Int × Int) : Nat → (Int → Int × Int)
  | 0 => setKeyAt (setValAt a 1 kv.2) 1 kv.1
  | i + 1 =>
      if (a (i + 1 : Nat)).1 > kv.1 then
        internalInsertLoop
          (fun m => if m = ((i : Int) + 2) then a (i + 1 : Nat) else a m) kv i
      else fun m => if m = ((i : Int) + 2) then kv else a m

/-- `BPlusTreeInternalPage::Insert(value, cmp)`: run the loop from
`size - 1`; every exit path increments the size once. -/
def internalInsert (ip : InternalPage) (kv : Int × Int) : InternalPage :=
  { ip with arr := internalInsertLoop ip.arr kv (ip.size - 1), size := ip.size + 1 }

/-! ## B+ tree (src/storage/index/b_plus_tree.cpp)

The tree operations pin and latch pages through the buffer pool; the
embedding elides pinning/latching (they do not change page contents) and
addresses pages directly by page id, with fresh ids taken from a monotone
allocator as `NewPage` does. -/

/-- A tree page is a leaf or an internal page. -/
inductive TreePage where
  | leaf (l : LeafPage)
  | internal (ip : InternalPage)

/-- Parent page id of a tree page (`BPlusTreePage::GetParentPageId`). -/
def TreePage.parent : TreePage → Int
  | .leaf l => l.parentPageId
  | .internal ip => ip.parentPageId

/-- Set the parent page id of a tree page (`SetParentPageId`). -/
def TreePage.withParent : TreePage → Int → TreePage
  | .leaf l, p => .leaf { l with parentPageId := p }
  | .internal ip, p => .internal { ip with parentPageId := p }

/-- B+ tree state: the page store, `root_page_id_`, the two max-size
parameters, and the buffer pool's page-id allocator. -/
structure BPTState where
  pages : Int → Option TreePage
  rootPageId : Int
  leafMaxSize : Nat
  internalMaxSize : Nat
  nextPageId : Int

/-- An empty tree (`root_page_id_ = INVALID_PAGE_ID`). -/
def emptyBPT (lms ims : Nat) : BPTState :=
  ⟨fun _ => none, invalidPageId, lms, ims, 0⟩

/-- Store a tree page at a page id. -/
def setTreePage (pages : Int → Option TreePage) (pid : Int) (pg : TreePage) :
    Int → Option TreePage :=
  fun p => if p = pid then some pg else pages p

/-- Descent loop of `FindLeafPage`: while the current page is internal,
follow `LookUp(key)`.  The fuel bounds the number of internal steps; a leaf
is returned regardless of remaining fuel. -/
def descend (t : BPTState) (key : Int) (fuel : Nat) (pid : Int) : Option Int :=
  match t.pages pid with
  | some (.leaf _) => some pid
  | some (.internal ip) =>
      match fuel with
      | 0 => none
      | fuel' + 1 => descend t key fuel' (internalLookUp ip key)
  | none => none

/-- `BPlusTree::FindLeafPage` (modulo latching): null on an empty tree,
else descend from the root. -/
def findLeaf (t : BPTState) (key : Int) (fuel : Nat) : Option Int :=
  if t.rootPageId = invalidPageId then none
  else descend t key fuel t.rootPageId

/-- `BPlusTree::GetValue(key)`: find the leaf, take `KeyIndex`, and succeed
iff that slot is within the size and holds exactly `key`. -/
def getValueF (fuel : Nat) (t : BPTState) (key : Int) : Option Int :=
  if t.rootPageId = invalidPageId then none
  else
    match findLeaf t key fuel with
    | none => none
    | some pid =>
        match t.pages pid with
        | some (.leaf l) =>
            let i := leafKeyIndex l key
            if i < l.size ∧ (l.arr i).1 = key then some (l.arr i).2 else none
        | _ => none

/-- `BPlusTree::InsertInParent(page, key, bother)`.  If the splitting page
is the root, a new internal root is built on a zeroed page via
`SetValueAt(0, left)`, `SetKeyAt(1, key)`, `SetValueAt(1, right)`,
`IncreaseSize(2)`.  Otherwise the separator is inserted into the parent
when it has room; else a fresh internal sibling is allocated, the parent's
`Break` is called — an EMPTY STUB in the source, so nothing is moved — and
the recursion continues with the sibling's `KeyAt(0)`, which on the still
zeroed page is key 0.  The fuel bounds the parent recursion. -/
def insertInParent (t : BPTState) (childPid key botherPid : Int) (fuel : Nat) :
    Option BPTState :=
      match t.pages childPid with
      | none => none
      | some child =>
          if child.parent = invalidPageId then
            let newPid := t.nextPageId
            let a0 : Int → Int × Int := fun _ => (0, 0)
            let a1 := setValAt (setKeyAt (setValAt a0 0 childPid) 1 key) 1 botherPid
            let newRoot : InternalPage := ⟨a1, 2, t.internalMaxSize, invalidPageId, newPid⟩
            let pages1 := setTreePage t.pages newPid (.internal newRoot)
            let pages2 := setTreePage pages1 childPid (child.withParent newPid)
            let pages3 :=
              match t.pages botherPid with
              | some b => setTreePage pages2 botherPid (b.withParent newPid)
              | none => pages2
            some { t with pages := pages3, rootPageId := newPid,
                          nextPageId := t.nextPageId + 1 }
          else
            match t.pages child.parent with
            | some (.internal parent) =>
                if parent.size < parent.maxSize then
                  let parent' := internalInsert parent (key, botherPid)
                  let pages1 := setTreePage t.pages child.parent (.internal parent')
                  let pages2 :=
                    match t.pages botherPid with
                    | some b => setTreePage pages1 botherPid (b.withParent child.parent)
                    | none => pages1
                  some { t with pages := pages2 }
                else
                  match fuel with
                  | 0 => none
                  | fuel' + 1 =>
                      let pbPid := t.nextPageId
                      let pb := InternalPage.init pbPid invalidPageId t.internalMaxSize
                      -- parent->Break(...) is an empty stub: no entries move
                      let t1 := { t with pages := setTreePage t.pages pbPid (.internal pb),
                                         nextPageId := t.nextPageId + 1 }
                      insertInParent t1 child.parent ((pb.arr 0).1) pbPid fuel'
            | _ => none
termination_by fuel

/-- Leaf-level part of `BPlusTree::Insert` once the target leaf is found:
compute `KeyIndex`, call the leaf's `InSert` (duplicate returns false with
the tree unchanged), and when the new size REACHES `leaf_max_size_` run the
split: allocate a sibling leaf, `Break`, then `InsertInParent` with the
sibling's first key.  Every completing path returns false — the source ends
with `return false` after the successful insert as well. -/
def insertAtLeafPage (dFuel bFuel : Nat) (t : BPTState) (pidL : Int) (key v : Int) :
    Option (Bool × BPTState) :=
  match t.pages pidL with
  | some (.leaf l) =>
      let index := leafKeyIndex l key
      match leafInSert l (key, v) index with
      | (false, _) => some (false, t)
      | (true, l') =>
          let t2 := { t with pages := setTreePage t.pages pidL (.leaf l') }
          if l'.size = t.leafMaxSize then
            let botherPid := t2.nextPageId
            let bother := LeafPage.init botherPid invalidPageId t.leafMaxSize
            match leafBreak bFuel l' bother with
            | none => none
            | some (s', b') =>
                let t3 := { t2 with
                  pages := setTreePage (setTreePage t2.pages pidL (.leaf s'))
                    botherPid (.leaf b'),
                  nextPageId := t2.nextPageId + 1 }
                match insertInParent t3 pidL ((b'.arr 0).1) botherPid dFuel with
                | none => none
                | some t4 => some (false, t4)
          else some (false, t2)
  | _ => none

/-- `BPlusTree::Insert(key, value)`.  On an empty tree a leaf root is
created first (`NewPage` + `Init` + `root_page_id_` update) and the leaf is
re-found; then the leaf-level insert runs.  `dFuel` bounds descent and
parent recursion, `bFuel` the split copy loop. -/
def bptInsert (dFuel bFuel : Nat) (t : BPTState) (key v : Int) :
    Option (Bool × BPTState) :=
  match findLeaf t key dFuel with
  | some pidL => insertAtLeafPage dFuel bFuel t pidL key v
  | none =>
      if t.rootPageId = invalidPageId then
        let pid := t.nextPageId
        let t1 := { t with
          pages := setTreePage t.pages pid (.leaf (LeafPage.init pid invalidPageId t.leafMaxSize)),
          rootPageId := pid, nextPageId := t.nextPageId + 1 }
        match findLeaf t1 key dFuel with
        | some pidL => insertAtLeafPage dFuel bFuel t1 pidL key v
        | none => none
      else none

/-- Tree states reachable from the empty tree by completing `Insert`
calls. -/
inductive Reachable (lms ims : Nat) : BPTState → Prop
  | init : Reachable lms ims (emptyBPT lms ims)
  | step {t t' : BPTState} {df bf : Nat} {k v : Int} {r : Bool} :
      Reachable lms ims t → bptInsert df bf t k v = some (r, t') →
      Reachable lms ims t'

/-- Keys of a leaf are strictly increasing below `size`. -/
def leafSorted (l : LeafPage) : Prop :=
  ∀ i j, i < j → j < l.size → (l.arr i).1 < (l.arr j).1

/-- Invariant of reachable trees: the allocator is non-negative, and the
tree is empty or its root is a non-negative page id holding a sorted leaf
whose max-size field is the tree's `leaf_max_size_`. -/
def SingleLeafRoot (t : BPTState) : Prop :=
  0 ≤ t.nextPageId ∧
  (t.rootPageId = invalidPageId ∨
    (0 ≤ t.rootPageId ∧
      ∃ l, t.pages t.rootPageId = some (.leaf l) ∧
        l.maxSize = t.leafMaxSize ∧ leafSorted l))

/-! ## Lock manager (src/concurrency/lock_manager.cpp) -/

/-- The five table lock modes. -/
inductive LockMode where
  | intentionShared
  | intentionExclusive
  | shared
  | sharedIntentionExclusive
  | exclusive
deriving DecidableEq, Repr

/-- The six abort reasons of the lock manager. -/
inductive AbortReason where
  | lockOnShrinking
  | lockSharedOnReadUncommitted
  | upgradeConflict
  | incompatibleUpgrade
  | tableLockNotPresent
  | tableUnlockedBeforeUnlockingRows
deriving DecidableEq, Repr

/-- Body of `case SHARED_INTENTION_EXCLUSIVE` in LockTable's upgrade
switch (this case ends with `break`). -/
def upgradeCaseSIX (req : LockMode) : Option AbortReason :=
  if req ≠ .exclusive then some .incompatibleUpgrade else none

/-- Body of `case INTENTION_EXCLUSIVE`; the case has no `break`, so
control falls through into the SIX case. -/
def upgradeCaseIX (req : LockMode) : Option AbortReason :=
  if ¬(req = .exclusive ∨ req = .sharedIntentionExclusive) then some .incompatibleUpgrade
  else upgradeCaseSIX req

/-- Body of `case SHARED`; no `break`, falls through into the IX case. -/
def upgradeCaseS (req : LockMode) : Option AbortReason :=
  if ¬(req = .exclusive ∨ req = .sharedIntentionExclusive) then some .incompatibleUpgrade
  else upgradeCaseIX req

/-- Body of `case INTENTION_SHARED`; no `break`, falls through into the
SHARED case. -/
def upgradeCaseIS (req : LockMode) : Option AbortReason :=
  if ¬(req = .shared ∨ req = .exclusive ∨ req = .intentionExclusive ∨
      req = .sharedIntentionExclusive) then some .incompatibleUpgrade
  else upgradeCaseS req

/-- The upgrade-check `switch (request->lock_mode_)` of `LockTable`, with
its fallthrough between cases; the `default` case (a held X lock) aborts.
Returns `some reason` when the code throws, `none` when it reaches the
upgrade path. -/
def upgradeSwitch (held req : LockMode) : Option AbortReason :=
  match held with
  | .intentionShared => upgradeCaseIS req
  | .shared => upgradeCaseS req
  | .intentionExclusive => upgradeCaseIX req
  | .sharedIntentionExclusive => upgradeCaseSIX req
  | .exclusive => some .incompatibleUpgrade

/-- Outcome of `LockTable` when the transaction already holds a request on
the table's queue. -/
inductive TableLockOutcome where
  | grantedNoop
  | abort (r : AbortReason)
  | upgradeStarted
deriving DecidableEq, Repr

/-- The held-request branch of `LockTable` (lines guarded by
`request->txn_id_ == txn->GetTransactionId()`): same mode is a no-op;
another transaction mid-upgrade aborts with UPGRADE_CONFLICT; otherwise the
upgrade switch above decides between INCOMPATIBLE_UPGRADE and entering the
upgrade path. -/
def lockTableHeldBranch (held req : LockMode) (upgradingOther : Bool) : TableLockOutcome :=
  if req = held then .grantedNoop
  else if upgradingOther then .abort .upgradeConflict
  else
    match upgradeSwitch held req with
    | some r => .abort r
    | none => .upgradeStarted

/-- Modelled from the spec: the upgrade matrix `IS → {S, X, IX, SIX};
S → {X, SIX}; IX → {X, SIX}; SIX → {X}` (this is the specification the code
is compared against, not a translation of the code). -/
def upgradeAllowedSpec : LockMode → LockMode → Bool
  | .intentionShared, .shared => true
  | .intentionShared, .exclusive => true
  | .intentionShared, .intentionExclusive => true
  | .intentionShared, .sharedIntentionExclusive => true
  | .shared, .exclusive => true
  | .shared, .sharedIntentionExclusive => true
  | .intentionExclusive, .exclusive => true
  | .intentionExclusive, .sharedIntentionExclusive => true
  | .sharedIntentionExclusive, .exclusive => true
  | _, _ => false

/-- One request in a lock request queue. -/
structure LockRequest where
  txnId : Nat
  mode : LockMode
  granted : Bool
  oid : Nat
deriving DecidableEq, Repr

/-- Lock manager state slice relevant to table unlocking: the per-table
request queues, the transactions' held table-lock sets and their S/X row
lock sets (entries are (txn id, table oid, row id)). -/
structure LMState where
  tableQueues : List (Nat × List LockRequest)
  heldTable : List (Nat × Nat × LockMode)
  sRowLocks : List (Nat × Nat × Nat)
  xRowLocks : List (Nat × Nat × Nat)
deriving DecidableEq, Repr

/-- Whether a transaction still holds some row lock under a table. -/
def txnHoldsRowLockUnder (s : LMState) (txnId oid : Nat) : Bool :=
  (s.sRowLocks ++ s.xRowLocks).any (fun r => r.1 = txnId ∧ r.2.1 = oid)

/-- `LockManager::UnlockTable` as in the source: `{ return true; }` — a
stub that inspects nothing and modifies nothing. -/
def unlockTable (s : LMState) (_txnId _oid : Nat) : Bool × LMState :=
  (true, s)

/-! ## Concrete scenario states used by the claim theorems -/

/-- Buffer pool of one frame with k = 3, after NewPage (page 0, pinned). -/
def c1s1 : BPState := (newPg (BPState.init 1 3)).2

/-- …then UnpinPage(0, false): pin count 0, frame evictable. -/
def c1s2 : BPState := (unpinPg c1s1 0 false).2

/-- …then FetchPage(0): pin count 1 again, but the source's
`SetEvictable(frame, true)` leaves the frame evictable. -/
def c1s3 : BPState := (fetchPg c1s2 0).2

/-- Buffer pool of one frame with k = 2, after NewPage (page 0 pinned). -/
def c4s1 : BPState := (newPg (BPState.init 1 2)).2

/-- LRU-2 replacer over 7 frames after RecordAccess 1, 2, 3, 1, 2. -/
def c5r1 : RState :=
  recordAccess (recordAccess (recordAccess (recordAccess
    (recordAccess (RState.init 7 2) 1) 2) 3) 1) 2

/-- …with frames 1, 2, 3 all set evictable. -/
def c5r2 : RState :=
  setEvictable (setEvictable (setEvictable c5r1 1 true) 2 true) 3 true

/-- One completed insert step with generous fuel (used to build concrete
trees). -/
def insStep (t : BPTState) (k v : Int) : BPTState :=
  ((bptInsert 8 64 t k v).map Prod.snd).getD t

/-- B+ tree with leaf_max_size 4 after inserting 1, 2, 3: a single root
leaf of size 3. -/
def c6t3 : BPTState := insStep (insStep (insStep (emptyBPT 4 4) 1 10) 2 20) 3 30

/-- The root leaf of `c6t3`. -/
def c6l3 : LeafPage :=
  match c6t3.pages 0 with
  | some (.leaf l) => l
  | _ => LeafPage.init 0 0 0

/-- The size-4 leaf produced inside the fourth insert, whose split then
starts the non-terminating copy loop. -/
def c6l4 : LeafPage := (leafInSert c6l3 (4, 40) (leafKeyIndex c6l3 4)).2

/-- Tree after one insert of (1, 10) into the empty tree (witness state
for the insert-then-lookup theorem). -/
def c3t1 : BPTState :=
  ((bptInsert 2 9 (emptyBPT 4 4) 1 10).map Prod.snd).getD (emptyBPT 4 4)

/-- Internal page of size 1 whose slot-0 STORED key is 5; the junk the
page holds at (out-of-bounds) index −1 is made explicit so the read is
observable. -/
def c7page : InternalPage :=
  ⟨fun i => if i = 0 then (5, 100) else if i = -1 then (0, 999) else (0, 0), 1, 4, -1, 7⟩

/-- Lock manager state in which transaction 1 holds a granted S table lock
on table 5 and still holds an X row lock on row 7 of table 5. -/
def c9state : LMState :=
  ⟨[(5, [⟨1, .shared, true, 5⟩])], [(1, 5, .shared)], [], [(1, 5, 7)]⟩

end DB

namespace DB

/-! ## Theorems -/

/-- C1: the spec demands that a frame with pin count > 0 is never chosen
as an eviction victim and that FetchPage of a resident page marks the
frame non-evictable.  The code instead calls `SetEvictable(frame, true)` on
the resident-fetch path: with pool size 1 and k = 3, after NewPage,
UnpinPage(0,false), FetchPage(0) the single frame has pin count 1 yet is
evictable in the replacer, and the next NewPage evicts exactly that pinned
frame (returning new page 1 in frame 0). -/
theorem bufferpool_fetch_leaves_pinned_frame_evictable_and_next_newpage_evicts_it :
    (c1s3.pages 0).pinCount = 1 ∧
    (findFrame c1s3.repl.hist 0).map (·.evictable) = some true ∧
    (replacerEvict c1s3.repl).1 = some 0 ∧
    (newPg c1s3).1 = some (1, 0) :=
  ⟨rfl, rfl, rfl, rfl⟩

/-- C4: UnpinPage on a resident page with positive pin count performs the
decrement, marks the frame evictable at pin count zero and ORs the dirty
flag — but the source then falls through to `return false`, so the claimed
`true` result never happens: after NewPage (page 0 pinned, clean), the call
UnpinPage(0, true) returns false while having set pin count 0 and dirty. -/
theorem bufferpool_unpin_decrements_but_returns_false :
    (c4s1.pages 0).pinCount = 1 ∧
    (unpinPg c4s1 0 true).1 = false ∧
    ((unpinPg c4s1 0 true).2.pages 0).pinCount = 0 ∧
    ((unpinPg c4s1 0 true).2.pages 0).isDirty = true ∧
    (findFrame ((unpinPg c4s1 0 true).2.repl.hist) 0).map (·.evictable) = some true :=
  ⟨rfl, rfl, rfl, rfl, rfl⟩

/-- C5: in the LRU-2 scenario (RecordAccess 1,2,3,1,2, all evictable) the
first Evict correctly returns frame 3 from the history list, but the
second Evict returns no victim at all — the cache scan only considers
non-evictable nodes (`while (p->pre_ && !p->evictable_)`), so the
evictable frames 1 and 2 are never candidates; the claim says Evict yields
1 and then 2. -/
theorem lruk_second_evict_returns_none_despite_evictable_cache_frames :
    (replacerEvict c5r2).1 = some 3 ∧
    (replacerEvict (replacerEvict c5r2).2).1 = none ∧
    (findFrame (replacerEvict c5r2).2.cache 1).map (·.evictable) = some true ∧
    (findFrame (replacerEvict c5r2).2.cache 2).map (·.evictable) = some true :=
  ⟨rfl, rfl, rfl, rfl⟩

/-- C10: with the INVALID page id, FetchPage returns the null sentinel and
UnpinPage, FlushPage and DeletePage return false, and each of the four
calls returns its state completely unchanged (directory, free list,
replacer and frames included), for every buffer pool state. -/
theorem bufferpool_invalid_page_id_calls_reject_and_change_nothing :
    ∀ (s : BPState) (d : Bool),
      fetchPg s invalidPageId = (none, s) ∧
      unpinPg s invalidPageId d = (false, s) ∧
      flushPg s invalidPageId = (false, s) ∧
      deletePg s invalidPageId = (false, s) := by
  intro s d
  refine ⟨?_, ?_, ?_, ?_⟩ <;> simp [fetchPg, unpinPg, flushPg, deletePg]

/-- C2: Insert is specified (also by the function's own doc comment) to
return true when the key is absent; the source's final `return false`
makes every completing Insert return false.  Key 1 is absent from the
empty tree, the insert completes and stores the value — and still returns
false. -/
theorem bptree_insert_of_fresh_key_returns_false :
    getValueF 1 (emptyBPT 4 4) 1 = none ∧
    (bptInsert 2 9 (emptyBPT 4 4) 1 10).map Prod.fst = some false ∧
    (bptInsert 2 9 (emptyBPT 4 4) 1 10).map (fun p => getValueF 1 p.2 1) =
      some (some 10) :=
  ⟨rfl, rfl, rfl⟩

/-- C7: LookUp is specified to treat slot 0's separator as −∞ and never to
read an array slot below index 0, but the loop compares slot 0's STORED
key: on an internal page of size 1 whose slot-0 key is 5, LookUp(3) reads
`array_[-1]` and returns whatever junk lives there. -/
theorem internal_lookup_reads_slot_below_zero :
    c7page.size = 1 ∧ (c7page.arr 0).1 = 5 ∧
    internalLookUpIdx c7page 3 = -1 ∧
    internalLookUp c7page 3 = (c7page.arr (-1)).2 ∧
    internalLookUp c7page 3 = 999 :=
  ⟨rfl, rfl, rfl, rfl, rfl⟩

/-- C8: the upgrade matrix allows IS → S (and IS → IX, IS → SIX, S → SIX,
IX → SIX), but the switch in LockTable has no `break` between its cases:
control falls from the satisfied IS case into the SHARED case, whose test
rejects S, so a transaction holding IS that requests S is aborted with
INCOMPATIBLE_UPGRADE; the only requests that survive the fall-through to
the upgrade path are upgrades to X. -/
theorem locktable_aborts_matrix_allowed_upgrades :
    lockTableHeldBranch .intentionShared .shared false =
      .abort .incompatibleUpgrade ∧
    upgradeAllowedSpec .intentionShared .shared = true ∧
    lockTableHeldBranch .intentionShared .intentionExclusive false =
      .abort .incompatibleUpgrade ∧
    upgradeAllowedSpec .intentionShared .intentionExclusive = true ∧
    lockTableHeldBranch .shared .sharedIntentionExclusive false =
      .abort .incompatibleUpgrade ∧
    upgradeAllowedSpec .shared .sharedIntentionExclusive = true ∧
    lockTableHeldBranch .intentionShared .exclusive false = .upgradeStarted :=
  ⟨rfl, rfl, rfl, rfl, rfl, rfl, rfl⟩

/-- C9: UnlockTable is specified to abort with
TABLE_UNLOCKED_BEFORE_UNLOCKING_ROWS while the transaction still holds a
row lock under the table, and on success to remove the granted request and
the held-lock entry; the source is the stub `return true`, which succeeds
and changes nothing even though transaction 1 still holds a row lock under
table 5. -/
theorem unlocktable_stub_succeeds_despite_held_row_locks :
    txnHoldsRowLockUnder c9state 1 5 = true ∧
    unlockTable c9state 1 5 = (true, c9state) :=
  ⟨rfl, rfl⟩

/-- The copy loop of the leaf `Break` never exits once entered: the source
size grows in lockstep with the loop index, so `i < GetSize()` is
preserved and every fuel bound is exhausted. -/
theorem breakLoop_loops (fuel : Nat) :
    ∀ (self bother : LeafPage) (i j : Nat),
      i < self.size → breakLoop fuel self bother i j = none := by
  induction fuel with
  | zero =>
      intro self bother i j h
      unfold breakLoop
      rw [if_pos h]
  | succ f ih =>
      intro self bother i j h
      unfold breakLoop
      rw [if_pos h]
      exact ih _ _ _ _ (Nat.succ_lt_succ h)

/-- The leaf `Break` diverges whenever the copy loop is entered, i.e. when
`maxSize/2 < size` — which holds at every split the tree performs. -/
theorem leafBreak_loops (fuel : Nat) (self bother : LeafPage)
    (h : self.maxSize / 2 < self.size) : leafBreak fuel self bother = none := by
  have h2 := breakLoop_loops fuel self bother (self.maxSize / 2) 0 h
  simp only [leafBreak, h2]

/-- Descending at a page that is a leaf returns that page id for every
fuel value. -/
theorem descend_leaf (t : BPTState) (key : Int) (fuel : Nat) (pid : Int)
    (l : LeafPage) (h : t.pages pid = some (.leaf l)) :
    descend t key fuel pid = some pid := by
  unfold descend
  rw [h]

/-- `FindLeafPage` on a tree whose root is a leaf returns the root. -/
theorem findLeaf_leafRoot (t : BPTState) (key : Int) (fuel : Nat) (l : LeafPage)
    (hroot : t.rootPageId ≠ invalidPageId)
    (h : t.pages t.rootPageId = some (.leaf l)) :
    findLeaf t key fuel = some t.rootPageId := by
  unfold findLeaf
  rw [if_neg hroot]
  exact descend_leaf t key fuel _ l h

/-- When the leaf-level insert fills the leaf to `leaf_max_size_`, the
split path runs `Break`, whose loop never terminates, so the whole insert
returns no result for any fuel. -/
theorem insertAtLeafPage_split_none (df bf : Nat) (t : BPTState) (pidL key v : Int)
    (l l' : LeafPage)
    (hp : t.pages pidL = some (.leaf l))
    (hins : leafInSert l (key, v) (leafKeyIndex l key) = (true, l'))
    (hsz : l'.size = t.leafMaxSize)
    (hmid : l'.maxSize / 2 < l'.size) :
    insertAtLeafPage df bf t pidL key v = none := by
  simp only [insertAtLeafPage, hp, hins, hsz, eq_self_iff_true, if_true]
  rw [leafBreak_loops bf l' (LeafPage.init t.nextPageId invalidPageId t.leafMaxSize) hmid]

/-- C6: with leaf_max_size 4 the fourth insert is claimed to split the
leaf into {1,2} and {3,4} under a new root.  In the source, `Break`
increments the splitting leaf's size inside its copy loop instead of
shrinking it, so the loop condition `i < GetSize()` never becomes false:
after inserting 1, 2, 3 the tree answers lookups correctly, but the insert
of key 4 never completes (no fuel bound suffices), and no split state
exists. -/
theorem bptree_fourth_insert_split_never_terminates :
    getValueF 1 c6t3 1 = some 10 ∧ getValueF 1 c6t3 2 = some 20 ∧
    getValueF 1 c6t3 3 = some 30 ∧
    (∀ df bf : Nat, bptInsert df bf c6t3 4 40 = none) := by
  refine ⟨rfl, rfl, rfl, ?_⟩
  intro df bf
  have hpage : c6t3.pages 0 = some (.leaf c6l3) := rfl
  have hfind : findLeaf c6t3 4 df = some 0 :=
    findLeaf_leafRoot c6t3 4 df c6l3 (by decide) hpage
  unfold bptInsert
  rw [hfind]
  exact insertAtLeafPage_split_none df bf c6t3 0 4 40 c6l3 c6l4 hpage rfl rfl
    (by decide)

/-- Lower-bound property of the leaf binary-search loop on a sorted key
array: starting from a window `[l, r)` whose outside is already classified
(everything below `l` is `< key`, everything in `[r, n)` is `≥ key`), with
enough fuel the loop lands on the boundary index. -/
theorem lowerBoundGo_spec (f : Nat → Int) (key : Int) (n : Nat)
    (hsort : ∀ i j : Nat, i < j → j < n → f i < f j) :
    ∀ (d l r : Nat), r ≤ n → r - l ≤ d → l ≤ r →
      (∀ i, i < l → f i < key) → (∀ i, r ≤ i → i < n → key ≤ f i) →
      (l ≤ lowerBoundGo f key d l r ∧ lowerBoundGo f key d l r ≤ r ∧
       (∀ i, i < lowerBoundGo f key d l r → f i < key) ∧
       (∀ i, lowerBoundGo f key d l r ≤ i → i < n → key ≤ f i)) := by
  intro d
  induction d with
  | zero =>
      intro l r hrn hd hlr hpre hsuf
      have hlreq : l = r := by omega
      subst hlreq
      exact ⟨le_refl l, le_refl l, hpre, hsuf⟩
  | succ d ih =>
      intro l r hrn hd hlr hpre hsuf
      unfold lowerBoundGo
      by_cases hlt : l < r
      · rw [if_pos hlt]
        have hmlt : (l + r) / 2 < r := by omega
        have hmge : l ≤ (l + r) / 2 := by omega
        by_cases hmid : f ((l + r) / 2) < key
        · rw [if_pos hmid]
          refine ?_ -- recurse on the right half
          have hpre' : ∀ i, i < (l + r) / 2 + 1 → f i < key := by
            intro i hi
            rcases Nat.lt_or_ge i l with h | h
            · exact hpre i h
            · rcases Nat.lt_or_ge i ((l + r) / 2) with h2 | h2
              · exact lt_trans (hsort i ((l + r) / 2) h2 (lt_of_lt_of_le hmlt hrn)) hmid
              · have : i = (l + r) / 2 := by omega
                rw [this]; exact hmid
          have h0 := ih ((l + r) / 2 + 1) r hrn (by omega) (by omega) hpre' hsuf
          exact ⟨by omega, h0.2.1, h0.2.2.1, h0.2.2.2⟩
        · rw [if_neg hmid]
          have hsuf' : ∀ i, (l + r) / 2 ≤ i → i < n → key ≤ f i := by
            intro i hi hin
            rcases Nat.lt_or_ge i r with h | h
            · rcases Nat.eq_or_lt_of_le hi with h2 | h2
              · rw [← h2]; exact le_of_not_lt hmid
              · exact le_trans (le_of_not_lt hmid)
                  (le_of_lt (hsort ((l + r) / 2) i h2 hin))
            · exact hsuf i h hin
          have h0 := ih l ((l + r) / 2) (by omega) (by omega) (by omega) hpre hsuf'
          exact ⟨h0.1, by omega, h0.2.2.1, h0.2.2.2⟩
      · rw [if_neg hlt]
        have hlreq : l = r := by omega
        subst hlreq
        exact ⟨le_refl l, le_refl l, hpre, hsuf⟩

/-- Lower-bound property of `KeyIndex` on a sorted leaf: every key before
the returned index is below the search key, every key from the index on is
at least the search key, and the index is at most the size. -/
theorem leafKeyIndex_spec (l : LeafPage) (key : Int) (hs : leafSorted l) :
    leafKeyIndex l key ≤ l.size ∧
    (∀ i, i < leafKeyIndex l key → (l.arr i).1 < key) ∧
    (∀ i, leafKeyIndex l key ≤ i → i < l.size → key ≤ (l.arr i).1) := by
  have h := lowerBoundGo_spec (fun i => (l.arr i).1) key l.size hs l.size 0 l.size
    (le_refl _) (by omega) (Nat.zero_le _)
    (fun i hi => absurd hi (Nat.not_lt_zero i))
    (fun i h1 h2 => absurd (lt_of_le_of_lt h1 h2) (lt_irrefl _))
  exact ⟨h.2.1, h.2.2.1, h.2.2.2⟩

/-- Behaviour of the leaf `InSert` at the `KeyIndex` position on a sorted
leaf when the key is absent (the duplicate test fails): the insert
succeeds, grows the size by one, stores the pair at the index, keeps the
keys sorted, and `KeyIndex` of the new leaf finds the pair again at the
same index. -/
theorem leafInSert_spec (l : LeafPage) (k v : Int) (hs : leafSorted l)
    (hsucc : ¬(leafKeyIndex l k < l.size ∧ (l.arr (leafKeyIndex l k)).1 = k)) :
    (leafInSert l (k, v) (leafKeyIndex l k)).1 = true ∧
    (leafInSert l (k, v) (leafKeyIndex l k)).2.size = l.size + 1 ∧
    (leafInSert l (k, v) (leafKeyIndex l k)).2.maxSize = l.maxSize ∧
    (leafInSert l (k, v) (leafKeyIndex l k)).2.arr (leafKeyIndex l k) = (k, v) ∧
    leafSorted (leafInSert l (k, v) (leafKeyIndex l k)).2 ∧
    leafKeyIndex (leafInSert l (k, v) (leafKeyIndex l k)).2 k = leafKeyIndex l k := by
  obtain ⟨hle, hpre, hsuf⟩ := leafKeyIndex_spec l k hs
  have hkey_gt : ∀ j, leafKeyIndex l k ≤ j → j < l.size → k < (l.arr j).1 := by
    intro j hj1 hj2
    rcases lt_or_eq_of_le (hsuf j hj1 hj2) with h | h
    · exact h
    · exfalso
      rcases Nat.eq_or_lt_of_le hj1 with h2 | h2
      · exact hsucc ⟨by omega, by rw [h2]; exact h.symm⟩
      · have hi : leafKeyIndex l k < l.size := by omega
        have := hsuf (leafKeyIndex l k) (le_refl _) hi
        have := hs (leafKeyIndex l k) j h2 hj2
        omega
  have harr : (leafInSert l (k, v) (leafKeyIndex l k)).2.arr =
      fun j => if j < leafKeyIndex l k then l.arr j
               else if j = leafKeyIndex l k then (k, v)
               else if j ≤ l.size then l.arr (j - 1)
               else l.arr j := by
    simp only [leafInSert, if_neg hsucc]
  have hsz : (leafInSert l (k, v) (leafKeyIndex l k)).2.size = l.size + 1 := by
    simp only [leafInSert, if_neg hsucc]
  have hmx : (leafInSert l (k, v) (leafKeyIndex l k)).2.maxSize = l.maxSize := by
    simp only [leafInSert, if_neg hsucc]
  have hat : (leafInSert l (k, v) (leafKeyIndex l k)).2.arr (leafKeyIndex l k) = (k, v) := by
    rw [harr]
    simp
  have hsorted : leafSorted (leafInSert l (k, v) (leafKeyIndex l k)).2 := by
    intro a b hab hb
    rw [hsz] at hb
    rw [harr]
    simp only []
    rcases Nat.lt_trichotomy b (leafKeyIndex l k) with hbc | hbc | hbc
    · rw [if_pos hbc, if_pos (by omega : a < leafKeyIndex l k)]
      exact hs a b hab (by omega)
    · rw [hbc, if_neg (lt_irrefl _), if_pos rfl,
        if_pos (by omega : a < leafKeyIndex l k)]
      exact hpre a (by omega)
    · rw [if_neg (by omega : ¬ b < leafKeyIndex l k),
        if_neg (by omega : ¬ b = leafKeyIndex l k),
        if_pos (by omega : b ≤ l.size)]
      have hb1 : k < (l.arr (b - 1)).1 := hkey_gt (b - 1) (by omega) (by omega)
      rcases Nat.lt_trichotomy a (leafKeyIndex l k) with hac | hac | hac
      · rw [if_pos hac]
        exact lt_trans (hpre a hac) hb1
      · rw [hac, if_neg (lt_irrefl _), if_pos rfl]
        exact hb1
      · rw [if_neg (by omega : ¬ a < leafKeyIndex l k),
          if_neg (by omega : ¬ a = leafKeyIndex l k),
          if_pos (by omega : a ≤ l.size)]
        exact hs (a - 1) (b - 1) (by omega) (by omega)
  have hfind : leafKeyIndex (leafInSert l (k, v) (leafKeyIndex l k)).2 k =
      leafKeyIndex l k := by
    obtain ⟨hle', hpre', hsuf'⟩ :=
      leafKeyIndex_spec (leafInSert l (k, v) (leafKeyIndex l k)).2 k hsorted
    by_contra hne
    rcases Nat.lt_or_ge (leafKeyIndex (leafInSert l (k, v) (leafKeyIndex l k)).2 k)
      (leafKeyIndex l k) with hcase | hcase
    · have h1 := hsuf' _ (le_refl _) (by rw [hsz]; omega)
      have h2 : (leafInSert l (k, v) (leafKeyIndex l k)).2.arr
          (leafKeyIndex (leafInSert l (k, v) (leafKeyIndex l k)).2 k) =
          l.arr (leafKeyIndex (leafInSert l (k, v) (leafKeyIndex l k)).2 k) := by
        rw [harr]; simp only [if_pos hcase]
      rw [h2] at h1
      have h3 := hpre _ hcase
      omega
    · have hcase2 : leafKeyIndex l k <
          leafKeyIndex (leafInSert l (k, v) (leafKeyIndex l k)).2 k := by omega
      have h1 := hpre' _ hcase2
      rw [hat] at h1
      exact lt_irrefl k h1
  refine ⟨?_, hsz, hmx, hat, hsorted, hfind⟩
  simp only [leafInSert, if_neg hsucc]

/-- Case analysis of the leaf-level insert when it completes: the result
flag is false (the source's final `return false`), and either the key was
a duplicate at `KeyIndex` and the tree is unchanged, or the key was fresh,
no split fired (a firing split never completes), and exactly the root
leaf's page was replaced by the grown leaf. -/
theorem insertAtLeafPage_some_cases (df bf : Nat) (t : BPTState) (pidL k v : Int)
    (r : Bool) (t' : BPTState) (l : LeafPage)
    (hp : t.pages pidL = some (.leaf l))
    (hmax : l.maxSize = t.leafMaxSize)
    (h : insertAtLeafPage df bf t pidL k v = some (r, t')) :
    r = false ∧
    ((t' = t ∧ leafKeyIndex l k < l.size ∧ (l.arr (leafKeyIndex l k)).1 = k) ∨
     (¬(leafKeyIndex l k < l.size ∧ (l.arr (leafKeyIndex l k)).1 = k) ∧
      t' = { t with pages := setTreePage t.pages pidL (TreePage.leaf (leafInSert l (k, v) (leafKeyIndex l k)).2) })) := by
  by_cases hdup : leafKeyIndex l k < l.size ∧ (l.arr (leafKeyIndex l k)).1 = k
  · have hins : leafInSert l (k, v) (leafKeyIndex l k) = (false, l) := by
      simp only [leafInSert, if_pos hdup]
    simp only [insertAtLeafPage, hp, hins, Option.some.injEq, Prod.mk.injEq] at h
    exact ⟨h.1.symm, Or.inl ⟨h.2.symm, hdup⟩⟩
  · set l2 := (leafInSert l (k, v) (leafKeyIndex l k)).2 with hl2
    have hins : leafInSert l (k, v) (leafKeyIndex l k) = (true, l2) := by
      rw [hl2]
      simp only [leafInSert, if_neg hdup]
    have hsz1 : l2.size = l.size + 1 := by
      rw [hl2]
      simp only [leafInSert, if_neg hdup]
    have hmx : l2.maxSize = l.maxSize := by
      rw [hl2]
      simp only [leafInSert, if_neg hdup]
    by_cases hsz : l2.size = t.leafMaxSize
    · exfalso
      have hmid : l2.maxSize / 2 < l2.size := by
        rw [hmx, hmax, ← hsz]
        exact Nat.div_lt_self (by omega) (by omega)
      rw [insertAtLeafPage_split_none df bf t pidL k v l l2 hp hins hsz hmid] at h
      cases h
    · simp only [insertAtLeafPage, hp, hins, if_neg hsz, Option.some.injEq,
        Prod.mk.injEq] at h
      exact ⟨h.1.symm, Or.inr ⟨hdup, h.2.symm⟩⟩

/-- Point lookup on a tree whose root is a leaf that holds `(k, v)` at the
position `KeyIndex` computes. -/
theorem getValueF_leafRoot (df : Nat) (t : BPTState) (k v : Int) (l : LeafPage)
    (i : Nat)
    (hroot : t.rootPageId ≠ invalidPageId)
    (hp : t.pages t.rootPageId = some (.leaf l))
    (hidx : leafKeyIndex l k = i)
    (hlt : i < l.size)
    (hat : l.arr i = (k, v)) :
    getValueF df t k = some v := by
  have h1 : findLeaf t k df = some t.rootPageId := findLeaf_leafRoot t k df l hroot hp
  unfold getValueF
  rw [if_neg hroot, h1]
  simp only [hp]
  rw [hidx, if_pos ⟨hlt, by rw [hat]⟩, hat]

/-- A failed point lookup on a leaf-root tree means the duplicate test of a
subsequent insert fails. -/
theorem getValueF_none_cond (df : Nat) (t : BPTState) (k : Int) (l : LeafPage)
    (hroot : t.rootPageId ≠ invalidPageId)
    (hp : t.pages t.rootPageId = some (.leaf l))
    (h : getValueF df t k = none) :
    ¬(leafKeyIndex l k < l.size ∧ (l.arr (leafKeyIndex l k)).1 = k) := by
  intro hc
  simp only [getValueF, if_neg hroot, findLeaf_leafRoot t k df l hroot hp, hp,
    if_pos hc] at h
  exact Option.noConfusion h

/-- Structure of every completing `Insert` from a state satisfying the
reachable-tree invariant: the invariant is preserved, and either the key
was already present at the root leaf's `KeyIndex` position and the tree is
unchanged, or afterwards the root leaf holds `(k, v)` exactly where
`KeyIndex` finds it. -/
theorem bptInsert_some_main (df bf : Nat) (t t' : BPTState) (k v : Int) (r : Bool)
    (inv : SingleLeafRoot t) (h : bptInsert df bf t k v = some (r, t')) :
    SingleLeafRoot t' ∧
    ((t' = t ∧ ∃ l : LeafPage,
        t.rootPageId ≠ invalidPageId ∧
        t.pages t.rootPageId = some (.leaf l) ∧
        leafKeyIndex l k < l.size ∧ (l.arr (leafKeyIndex l k)).1 = k) ∨
     (∃ (l' : LeafPage) (i : Nat),
        t'.rootPageId ≠ invalidPageId ∧
        t'.pages t'.rootPageId = some (.leaf l') ∧
        leafKeyIndex l' k = i ∧ i < l'.size ∧ l'.arr i = (k, v))) := by
  obtain ⟨hnp, hroot⟩ := inv
  rcases hroot with he | ⟨hge, l, hp, hmax, hs⟩
  · -- empty tree: a leaf root is created first
    have hpidne : t.nextPageId ≠ invalidPageId := by rw [invalidPageId]; omega
    have hfl : findLeaf t k df = none := by unfold findLeaf; rw [if_pos he]
    simp only [bptInsert, hfl, he, eq_self_iff_true, if_true] at h
    set l0 : LeafPage := LeafPage.init t.nextPageId invalidPageId t.leafMaxSize with hl0
    set t1 : BPTState :=
      { t with
        pages := setTreePage t.pages t.nextPageId (.leaf l0),
        rootPageId := t.nextPageId, nextPageId := t.nextPageId + 1 } with ht1
    have hp1 : t1.pages t1.rootPageId = some (.leaf l0) := by
      simp [ht1, setTreePage]
    have hroot1 : t1.rootPageId ≠ invalidPageId := hpidne
    have hfl1 : findLeaf t1 k df = some t1.rootPageId :=
      findLeaf_leafRoot t1 k df l0 hroot1 hp1
    simp only [hfl1] at h
    have hs0 : leafSorted l0 := by
      intro i j hij hj
      exact absurd hj (by simp [hl0, LeafPage.init])
    obtain ⟨hr, hcases⟩ := insertAtLeafPage_some_cases df bf t1 t1.rootPageId k v r t' l0
      hp1 (by simp [hl0, LeafPage.init, ht1]) h
    rcases hcases with ⟨_, hlt, _⟩ | ⟨hsucc, ht'⟩
    · exact absurd hlt (by simp [hl0, LeafPage.init])
    · obtain ⟨_, hsz', hmx', hat', hsorted', hfind'⟩ := leafInSert_spec l0 k v hs0 hsucc
      have hp' : t'.pages t'.rootPageId =
          some (.leaf (leafInSert l0 (k, v) (leafKeyIndex l0 k)).2) := by
        rw [ht']
        simp [setTreePage]
      have hnp' : 0 ≤ t'.nextPageId := by
        rw [ht']
        show 0 ≤ t1.nextPageId
        rw [ht1]
        show 0 ≤ t.nextPageId + 1
        omega
      have hge' : 0 ≤ t'.rootPageId := by
        rw [ht']
        show 0 ≤ t1.rootPageId
        rw [ht1]
        show 0 ≤ t.nextPageId
        exact hnp
      have hmx'' : (leafInSert l0 (k, v) (leafKeyIndex l0 k)).2.maxSize =
          t'.leafMaxSize := by
        rw [ht']
        show _ = t1.leafMaxSize
        rw [hmx']
        simp [hl0, LeafPage.init, ht1]
      refine ⟨⟨hnp', Or.inr ⟨hge', ⟨_, hp', hmx'', hsorted'⟩⟩⟩,
        Or.inr ⟨_, leafKeyIndex l0 k, by rw [ht']; exact hroot1, hp', hfind', ?_, hat'⟩⟩
      have hle0 := (leafKeyIndex_spec l0 k hs0).1
      rw [hsz']
      omega
  · -- root is a sorted leaf
    have hrne : t.rootPageId ≠ invalidPageId := by rw [invalidPageId]; omega
    have hfl : findLeaf t k df = some t.rootPageId := findLeaf_leafRoot t k df l hrne hp
    simp only [bptInsert, hfl] at h
    obtain ⟨hr, hcases⟩ := insertAtLeafPage_some_cases df bf t t.rootPageId k v r t' l
      hp hmax h
    rcases hcases with ⟨ht', hlt, hk⟩ | ⟨hsucc, ht'⟩
    · exact ⟨by rw [ht']; exact ⟨hnp, Or.inr ⟨hge, l, hp, hmax, hs⟩⟩,
        Or.inl ⟨ht', l, hrne, hp, hlt, hk⟩⟩
    · obtain ⟨_, hsz', hmx', hat', hsorted', hfind'⟩ := leafInSert_spec l k v hs hsucc
      have hp' : t'.pages t'.rootPageId =
          some (.leaf (leafInSert l (k, v) (leafKeyIndex l k)).2) := by
        rw [ht']
        simp [setTreePage]
      have hle := (leafKeyIndex_spec l k hs).1
      have hnp' : 0 ≤ t'.nextPageId := by
        rw [ht']
        exact hnp
      have hge' : 0 ≤ t'.rootPageId := by
        rw [ht']
        exact hge
      have hmx'' : (leafInSert l (k, v) (leafKeyIndex l k)).2.maxSize =
          t'.leafMaxSize := by
        rw [ht']
        show _ = t.leafMaxSize
        rw [hmx', hmax]
      exact ⟨⟨hnp', Or.inr ⟨hge', ⟨_, hp', hmx'', hsorted'⟩⟩⟩,
        Or.inr ⟨_, leafKeyIndex l k, by rw [ht']; exact hrne, hp', hfind',
          by rw [hsz']; omega, hat'⟩⟩

/-- Every reachable tree satisfies the single-sorted-leaf-root invariant. -/
theorem reachable_inv {lms ims : Nat} {t : BPTState} (h : Reachable lms ims t) :
    SingleLeafRoot t := by
  induction h with
  | init => exact ⟨by simp [emptyBPT], Or.inl rfl⟩
  | step _ hins ih =>
      exact (bptInsert_some_main _ _ _ _ _ _ _ ih hins).1

/-- C3: on every tree reachable by completed inserts, if `key` is absent
(GetValue fails) and `Insert(key, value)` completes, then GetValue finds
the key and returns the stored value — with any descent fuel, since
reachable trees keep a single leaf root (splits never complete in this
source, see the Break analysis). -/
theorem bptree_insert_then_lookup_returns_value
    (lms ims df bf df1 df2 : Nat) (t t' : BPTState) (k v : Int) (r : Bool)
    (hreach : Reachable lms ims t)
    (habsent : getValueF df1 t k = none)
    (hins : bptInsert df bf t k v = some (r, t')) :
    getValueF df2 t' k = some v := by
  have inv := reachable_inv hreach
  obtain ⟨_, hcases⟩ := bptInsert_some_main df bf t t' k v r inv hins
  rcases hcases with ⟨_, l, hrne, hp, hlt, hk⟩ | ⟨l', i, hrne', hp', hidx, hlt', hat'⟩
  · exact absurd ⟨hlt, hk⟩ (getValueF_none_cond df1 t k l hrne hp habsent)
  · exact getValueF_leafRoot df2 t' k v l' i hrne' hp' hidx hlt' hat'

/-- Witness for C3: key 1 is absent from the empty tree, Insert(1, 10)
completes, and GetValue(1) on the resulting tree returns 10. -/
theorem bptree_insert_then_lookup_returns_value_witness :
    getValueF 0 c3t1 1 = some 10 :=
  bptree_insert_then_lookup_returns_value 4 4 2 9 0 0 (emptyBPT 4 4) c3t1 1 10 false
    Reachable.init rfl rfl

end DB
